import Mathlib

/-!
# Verification of the block locator / replacer patch script

A shallow embedding of `update_stream_service.py`, a source-patching
utility.  The script reads a TypeScript file into one in-memory string,
applies a fixed sequence of edits (substring removals, guarded
insertions, and two signature-located block replacements driven by a
brace-depth scan), and writes the buffer back only after every edit has
succeeded.  Buffers are modelled as `List Char`; the Python `str.find`,
`str.replace`, `in`, slicing, and the explicit brace-depth loop are each
embedded below, and the spec-level notions (substring occurrence, the
depth counter, matching close delimiters) are defined separately so that
the code-side functions can be proved against them.
-/

namespace StreamPatch

/-- Embedding of Python `text.find(pat)`: index of the first occurrence
of `pat` in the buffer, `none` when absent (Python returns `-1`). -/
def findSub (pat : List Char) : List Char → Option Nat
  | [] => if pat.isPrefixOf ([] : List Char) then some 0 else none
  | c :: rest =>
    if pat.isPrefixOf (c :: rest) then some 0
    else (findSub pat rest).map (fun n => n + 1)

/-- Embedding of Python `pat in text` (substring containment test), the
idempotency guard's check. -/
def containsSub (pat text : List Char) : Bool :=
  (findSub pat text).isSome

/-- Worker for `replaceAll`, structurally recursive on a fuel bound so
that it also reduces inside the kernel.  The fuel only has to dominate
the buffer length: each step consumes one unit and at least one
character (a match consumes `pat.length ≥ 1` characters). -/
def replaceAllAux (pat repl : List Char) : Nat → List Char → List Char
  | _, [] => if pat.isEmpty then repl else []
  | 0, text => text
  | fuel + 1, c :: rest =>
    if pat.isPrefixOf (c :: rest) && !pat.isEmpty then
      repl ++ replaceAllAux pat repl fuel (List.drop (pat.length - 1) rest)
    else if pat.isEmpty then
      repl ++ c :: replaceAllAux pat repl fuel rest
    else
      c :: replaceAllAux pat repl fuel rest

/-- Embedding of Python `text.replace(pat, repl)`: replace every
occurrence of `pat`, scanning left to right, never rescanning the
replacement.  Like Python, an empty pattern inserts `repl` at every
position. -/
def replaceAll (pat repl text : List Char) : List Char :=
  replaceAllAux pat repl text.length text

/-- The guarded insertion pattern of the script (lines 12-23): when the
`marker` is already present the buffer is untouched, otherwise every
occurrence of the `anchor` is replaced by `repl` (in the script, the
anchor followed by the inserted declaration). -/
def guardedInsert (marker anchor repl text : List Char) : List Char :=
  if containsSub marker text then text else replaceAll anchor repl text

/-- Errors raised by the script via `SystemExit`: a missing signature
("... not found") or a block whose end the brace scan never reaches
("Unable to locate end of ...").  Both name the signature's construct. -/
inductive PatchError where
  | signatureNotFound (sig : List Char)
  | unbalancedBlock (sig : List Char)
deriving DecidableEq

instance {ε α : Type} [DecidableEq ε] [DecidableEq α] : DecidableEq (Except ε α)
  | .error a, .error b =>
    if h : a = b then .isTrue (by rw [h]) else .isFalse (fun hh => by cases hh; exact h rfl)
  | .error _, .ok _ => .isFalse (fun hh => by cases hh)
  | .ok _, .error _ => .isFalse (fun hh => by cases hh)
  | .ok a, .ok b =>
    if h : a = b then .isTrue (by rw [h]) else .isFalse (fun hh => by cases hh; exact h rfl)

/-- Embedding of the brace-depth loop (lines 31-41 / 86-96 of the
script): walk the remaining characters keeping the running `depth`;
`'\x7b'` increments, `'\x7d'` decrements and, when the counter hits zero,
the loop stops returning the current absolute index `i`. -/
def scanAux : List Char → Int → Nat → Option Nat
  | [], _, _ => none
  | c :: rest, depth, i =>
    if c = '\x7b' then scanAux rest (depth + 1) (i + 1)
    else if c = '\x7d' then
      if depth - 1 = 0 then some i else scanAux rest (depth - 1) (i + 1)
    else scanAux rest depth (i + 1)

/-- The block locator: find the first occurrence of the signature, then
run the brace-depth scan from that offset; mirrors lines 27-43 (and the
identical copy at lines 83-98) of the script. -/
def locate (text sig : List Char) : Except PatchError (Nat × Nat) :=
  match findSub sig text with
  | none => .error (.signatureNotFound sig)
  | some s =>
    match scanAux (text.drop s) 0 s with
    | none => .error (.unbalancedBlock sig)
    | some e => .ok (s, e)

/-- The block replacer, Python `text[:s] ++ repl ++ text[e+1:]`
(lines 79 and 134). -/
def replaceSpan (text : List Char) (s e : Nat) (repl : List Char) : List Char :=
  text.take s ++ repl ++ text.drop (e + 1)

/-- Locate a signature's block and splice in the replacement. -/
def locateReplace (text sig repl : List Char) : Except PatchError (List Char) :=
  match locate text sig with
  | .error err => .error err
  | .ok (s, e) => .ok (replaceSpan text s e repl)

/-! ## Spec-side notions

The specification's vocabulary — substring occurrence, the depth
counter, stop points of the scan — defined independently of the code
functions above, so that the code can be proved against them. -/

/-- Spec-side: `pat` occurs in `text` as a substring starting at
offset `i`. -/
def OccursAt (pat text : List Char) (i : Nat) : Prop :=
  pat.isPrefixOf (text.drop i) = true

instance (pat text : List Char) (i : Nat) : Decidable (OccursAt pat text i) :=
  inferInstanceAs (Decidable (_ = true))

/-- Spec-side: `pat` occurs somewhere in `text` as a substring. -/
def Occurs (pat text : List Char) : Prop := ∃ i, OccursAt pat text i

/-- One character's contribution to the depth counter: the open
delimiter increments, the close delimiter decrements. -/
def braceDelta (c : Char) : Int :=
  if c = '\x7b' then 1 else if c = '\x7d' then -1 else 0

/-- The depth counter after scanning all of `l`, starting from `d`. -/
def depthListFrom (d : Int) (l : List Char) : Int :=
  l.foldl (fun a c => a + braceDelta c) d

/-- Spec-side description of where the brace scan stops: at relative
offset `j` of `l` there is a close delimiter, and the depth counter,
started at `d`, is zero right after processing it. -/
def StopFromAt (d : Int) (l : List Char) (j : Nat) : Prop :=
  j < l.length ∧ l.getD j ' ' = '\x7d' ∧ depthListFrom d (l.take (j + 1)) = 0

instance (d : Int) (l : List Char) (j : Nat) : Decidable (StopFromAt d l j) :=
  inferInstanceAs (Decidable (_ ∧ _ ∧ _))

/-- The depth counter right after processing offset `j` of `l`
(counting from depth 0 at the start of `l`). -/
def depthUpTo (l : List Char) (j : Nat) : Int :=
  depthListFrom 0 (l.take (j + 1))

/-- Number of open delimiters seen up to and including offset `j`. -/
def opensUpTo (l : List Char) (j : Nat) : Nat :=
  (l.take (j + 1)).count '\x7b'

/-- Number of close delimiters seen up to and including offset `j`. -/
def closesUpTo (l : List Char) (j : Nat) : Nat :=
  (l.take (j + 1)).count '\x7d'

/-- Spec-side: at offset `j` the depth counter has returned to zero
after having been incremented at least once — the claim's description
of where the scan of a balanced block terminates. -/
def ZeroPt (l : List Char) (j : Nat) : Prop :=
  j < l.length ∧ depthUpTo l j = 0 ∧ 1 ≤ opensUpTo l j

instance (l : List Char) (j : Nat) : Decidable (ZeroPt l j) :=
  inferInstanceAs (Decidable (_ ∧ _ ∧ _))

/-! ## The concrete edit sequence of the script

The literal strings of `update_stream_service.py`.  Brace characters are
written `\x7b` / `\x7d` and apostrophes `\x27`; the byte-for-byte
mojibake of the comment on the `mcpClients` field line is kept as the
unicode codepoints the script holds. -/

/-- Line 8: the `fs` import removed if present. -/
def importFs : List Char := "import * as fs from \x27fs\x27;\n".toList

/-- Line 9: the `path` import removed if present. -/
def importPath : List Char := "import * as path from \x27path\x27;\n".toList

/-- Line 12: the marker guarding the field insertion. -/
def fieldMarker : List Char := "private activeScreenshotTasks".toList

/-- Line 13: the anchor line after which the field is inserted. -/
def fieldAnchor : List Char :=
  ("  private mcpClients: Map<string, PlaywrightMcpClient>; // ?? MCP" ++
   "¿Í»§¶Ë»º´æ\n").toList

/-- Line 16: the field declaration inserted after the anchor. -/
def fieldAddition : List Char :=
  "  private activeScreenshotTasks: Set<string>;\n".toList

/-- Line 19: the marker guarding the constructor-statement insertion. -/
def initMarker : List Char :=
  "this.activeScreenshotTasks = new Set();".toList

/-- Line 21: the constructor line serving as insertion anchor. -/
def ctorAnchor : List Char := "    this.mcpClients = new Map();\n".toList

/-- Line 22: the anchor followed by the inserted initialisation. -/
def ctorReplacement : List Char :=
  "    this.mcpClients = new Map();\n    this.activeScreenshotTasks = new Set();\n".toList

/-- Line 26: signature of the `startStreamWithMcp` block. -/
def start_signature : List Char :=
  "  startStreamWithMcp(runId: string, mcpClient: PlaywrightMcpClient): void \x7b".toList

/-- Lines 45-55 of the `new_start` replacement text (split into three
pieces, concatenated below, so that facts about the whole text can be
established window by window). -/
def ns1 : List Char :=
  ("  startStreamWithMcp(runId: string, mcpClient: PlaywrightMcpClient): void \x7b\n" ++
   "    if (this.timers.has(runId)) \x7b\n" ++
   "      return;\n" ++
   "    \x7d\n" ++
   "\n" ++
   "    const fps = this.config.fps > 0 ? this.config.fps : 1;\n" ++
   "    const interval = Math.max(200, Math.floor(1000 / fps));\n" ++
   "    this.mcpClients.set(runId, mcpClient);\n" ++
   "\n" ++
   "    const timer = setInterval(async () => \x7b\n" ++
   "      if (this.activeScreenshotTasks.has(runId)) \x7b\n").toList

/-- Lines 56-65 of the `new_start` replacement text. -/
def ns2 : List Char :=
  ("        return;\n" ++
   "      \x7d\n" ++
   "\n" ++
   "      this.activeScreenshotTasks.add(runId);\n" ++
   "      this.stats.totalAttempts += 1;\n" ++
   "\n" ++
   "      try \x7b\n" ++
   "        const result = await mcpClient.takeScreenshotForStream(\x7b runId \x7d);\n" ++
   "        await this.pushFrameAndUpdateCache(runId, result.buffer);\n" ++
   "        this.stats.successfulScreenshots += 1;\n").toList

/-- Lines 66-76 of the `new_start` replacement text. -/
def ns3 : List Char :=
  ("        this.updateAverageProcessingTime(result.durationMs ?? 0);\n" ++
   "      \x7d catch (error) \x7b\n" ++
   "        await this.handleStreamFailure(runId, error);\n" ++
   "      \x7d finally \x7b\n" ++
   "        this.activeScreenshotTasks.delete(runId);\n" ++
   "      \x7d\n" ++
   "    \x7d, interval);\n" ++
   "\n" ++
   "    this.timers.set(runId, timer);\n" ++
   "    console.log(`[StreamService] MCP stream started: $\x7brunId\x7d, interval=$\x7binterval\x7dms`);\n" ++
   "  \x7d\n").toList

/-- Lines 45-77: replacement body for `startStreamWithMcp`. -/
def new_start : List Char := ns1 ++ ns2 ++ ns3

/-- Line 82: signature of the `handleStreamFailure` block.  Note the
parameter type `rawError: any` that the replacement text below renames
to `rawError: unknown`. -/
def handle_signature : List Char :=
  "  private async handleStreamFailure(runId: string, rawError: any): Promise<void> \x7b".toList

/-- Lines 100-105 of the `new_handle` replacement text (split into three
pieces, concatenated below, like `new_start`). -/
def nh1 : List Char :=
  ("  private async handleStreamFailure(runId: string, rawError: unknown): Promise<void> \x7b\n" ++
   "    const message = rawError instanceof Error ? rawError.message : String(rawError ?? \x27Unknown error\x27);\n" ++
   "    const shortId = runId.substring(0, 8);\n" ++
   "\n" ++
   "    this.stats.fallbackFrames += 1;\n" ++
   "    console.warn(`[StreamService] MCP screenshot failed ($\x7bshortId\x7d): $\x7bmessage\x7d`);\n").toList

/-- Lines 106-118 of the `new_handle` replacement text. -/
def nh2 : List Char :=
  ("\n" ++
   "    const cachedFrame = this.frameBuffer.get(runId);\n" ++
   "    if (cachedFrame) \x7b\n" ++
   "      try \x7b\n" ++
   "        await this.pushFrameWithoutCache(runId, cachedFrame);\n" ++
   "      \x7d catch (pushError) \x7b\n" ++
   "        console.error(`[StreamService] failed to resend cached frame: $\x7brunId\x7d`, pushError);\n" ++
   "      \x7d\n" ++
   "    \x7d else \x7b\n" ++
   "      try \x7b\n" ++
   "        const placeholder = await this.createPlaceholderFrame();\n" ++
   "        await this.pushFrameWithoutCache(runId, placeholder);\n" ++
   "      \x7d catch (placeholderError) \x7b\n").toList

/-- Lines 119-131 of the `new_handle` replacement text. -/
def nh3 : List Char :=
  ("        console.error(`[StreamService] failed to push placeholder frame: $\x7brunId\x7d`, placeholderError);\n" ++
   "      \x7d\n" ++
   "    \x7d\n" ++
   "\n" ++
   "    const failureRate = this.stats.totalAttempts > 0\n" ++
   "      ? (this.stats.fallbackFrames / this.stats.totalAttempts) * 100\n" ++
   "      : 0;\n" ++
   "\n" ++
   "    if (this.stats.totalAttempts > 20 && failureRate > 90) \x7b\n" ++
   "      console.error(`[StreamService] failure rate $\x7bfailureRate.toFixed(1)\x7d%, pausing stream: $\x7brunId\x7d`);\n" ++
   "      this.pauseStreamTemporarily(runId, 10000);\n" ++
   "    \x7d\n" ++
   "  \x7d\n").toList

/-- Lines 100-131: replacement body for `handleStreamFailure`. -/
def new_handle : List Char := nh1 ++ nh2 ++ nh3

/-- The whole edit sequence of the script in source order (lines 8-134):
two import removals, two guarded insertions, then the two
signature-located block replacements.  A `SystemExit` raised by a locate
step becomes an error value and stops the sequence. -/
def runEdits (text : List Char) : Except PatchError (List Char) :=
  let t1 := replaceAll importFs [] text
  let t2 := replaceAll importPath [] t1
  let t3 := guardedInsert fieldMarker fieldAnchor (fieldAnchor ++ fieldAddition) t2
  let t4 := guardedInsert initMarker ctorAnchor ctorReplacement t3
  match locateReplace t4 start_signature new_start with
  | .error err => .error err
  | .ok t5 => locateReplace t5 handle_signature new_handle

/-- Final content of the target file after one run of the script: the
patched buffer is written back only by the single `path.write_text` on
line 135, after the last edit, and a `SystemExit` raised by any edit
aborts before that write, so on failure the file keeps its original
content. -/
def runScript (content : List Char) : List Char :=
  match runEdits content with
  | .ok patched => patched
  | .error _ => content

/-- Running the full edit sequence twice, the first run's output buffer
feeding the second run. -/
def runEditsTwice (text : List Char) : Except PatchError (List Char) :=
  match runEdits text with
  | .ok once => runEdits once
  | .error err => .error err

/-! ## Concrete fixtures used by witnesses and counterexamples -/

/-- A minimal well-formed input for the whole edit sequence: both
signatures present, each opening a balanced (here immediately closed)
block, no imports and no guard markers. -/
def idemBuffer : List Char :=
  start_signature ++ "\x7d\n".toList ++ handle_signature ++ "\x7d\n".toList

/-- The buffer produced by one successful run of the edit sequence on
`idemBuffer`. -/
def idemOnce : List Char :=
  new_start ++ '\n' :: (new_handle ++ ['\n'])

/-- A depth-3 nested-delimiter fixture for the locator. -/
def nestBuf : List Char := "sig\x7ba\x7bb\x7bc\x7dd\x7de\x7df".toList

/-- The signature of the block in `nestBuf`. -/
def nestSig : List Char := "sig\x7b".toList

/-! # Theorems -/

/-! ## `List.isPrefixOf` groundwork -/

theorem isPrefixOf_nil_left (l : List Char) : List.isPrefixOf [] l = true := by
  cases l with
  | nil => rfl
  | cons c cs => rfl

theorem isPrefixOf_cons_cons (p c : Char) (ps cs : List Char) :
    (p :: ps).isPrefixOf (c :: cs) = (p == c && ps.isPrefixOf cs) := rfl

theorem cons_isPrefixOf_nil (p : Char) (ps : List Char) :
    (p :: ps).isPrefixOf ([] : List Char) = false := rfl

theorem isPrefixOf_length_le {pat l : List Char} (h : pat.isPrefixOf l = true) :
    pat.length ≤ l.length := by
  induction pat generalizing l with
  | nil => simp
  | cons p ps ih =>
    cases l with
    | nil => rw [cons_isPrefixOf_nil] at h; cases h
    | cons c cs =>
      rw [isPrefixOf_cons_cons, Bool.and_eq_true] at h
      have := ih h.2
      simp only [List.length_cons]
      omega

/-- A prefix check only inspects the first `|pat|` characters. -/
theorem isPrefixOf_take_eq (ps : List Char) :
    ∀ (L : List Char) (n : Nat), ps.length ≤ n →
      ps.isPrefixOf (L.take n) = ps.isPrefixOf L := by
  induction ps with
  | nil => intro L n _; rw [isPrefixOf_nil_left, isPrefixOf_nil_left]
  | cons p tl ih =>
    intro L n h
    cases L with
    | nil => rw [List.take_nil]
    | cons c cs =>
      cases n with
      | zero => simp at h
      | succ m =>
        rw [List.take_succ_cons, isPrefixOf_cons_cons, isPrefixOf_cons_cons,
          ih cs m (by simp only [List.length_cons] at h; omega)]

/-! ## `findSub` against the occurrence predicate -/

theorem occursAt_nil (pat : List Char) (i : Nat) :
    OccursAt pat ([] : List Char) i ↔ pat.isPrefixOf ([] : List Char) = true := by
  simp [OccursAt]

theorem occursAt_zero (pat text : List Char) :
    OccursAt pat text 0 ↔ pat.isPrefixOf text = true := by
  simp [OccursAt]

theorem occursAt_cons_succ (pat : List Char) (c : Char) (rest : List Char) (i : Nat) :
    OccursAt pat (c :: rest) (i + 1) ↔ OccursAt pat rest i := by
  simp [OccursAt]

theorem findSub_eq_some_iff (pat : List Char) :
    ∀ (text : List Char) (i : Nat), findSub pat text = some i ↔
      (OccursAt pat text i ∧ ∀ k, k < i → ¬ OccursAt pat text k) := by
  intro text
  induction text with
  | nil =>
    intro i
    by_cases hp : pat.isPrefixOf ([] : List Char) = true
    · rw [findSub, if_pos hp]
      constructor
      · intro h
        injection h with h
        subst h
        exact ⟨(occursAt_nil pat 0).mpr hp, by omega⟩
      · rintro ⟨-, hmin⟩
        rcases Nat.eq_zero_or_pos i with h0 | h0
        · rw [h0]
        · exact absurd ((occursAt_nil pat 0).mpr hp) (hmin 0 h0)
    · rw [findSub, if_neg hp]
      constructor
      · intro h; cases h
      · rintro ⟨hocc, -⟩
        exact absurd ((occursAt_nil pat i).mp hocc) hp
  | cons c rest ih =>
    intro i
    by_cases hp : pat.isPrefixOf (c :: rest) = true
    · rw [findSub, if_pos hp]
      constructor
      · intro h
        injection h with h
        subst h
        exact ⟨(occursAt_zero pat (c :: rest)).mpr hp, by omega⟩
      · rintro ⟨-, hmin⟩
        rcases Nat.eq_zero_or_pos i with h0 | h0
        · rw [h0]
        · exact absurd ((occursAt_zero pat (c :: rest)).mpr hp) (hmin 0 h0)
    · rw [findSub, if_neg hp]
      constructor
      · intro h
        rcases Option.map_eq_some'.mp h with ⟨j, hj, rfl⟩
        rcases (ih j).mp hj with ⟨hocc, hmin⟩
        refine ⟨(occursAt_cons_succ pat c rest j).mpr hocc, ?_⟩
        intro k hk
        cases k with
        | zero => exact fun hc => hp ((occursAt_zero pat (c :: rest)).mp hc)
        | succ k' =>
          intro hc
          exact hmin k' (by omega) ((occursAt_cons_succ pat c rest k').mp hc)
      · rintro ⟨hocc, hmin⟩
        cases i with
        | zero => exact absurd ((occursAt_zero pat (c :: rest)).mp hocc) hp
        | succ i' =>
          have : findSub pat rest = some i' := by
            refine (ih i').mpr ⟨(occursAt_cons_succ pat c rest i').mp hocc, ?_⟩
            intro k hk hc
            exact hmin (k + 1) (by omega) ((occursAt_cons_succ pat c rest k).mpr hc)
          rw [Option.map_eq_some']
          exact ⟨i', this, rfl⟩

theorem findSub_eq_none_iff (pat : List Char) :
    ∀ text : List Char, findSub pat text = none ↔ ∀ i, ¬ OccursAt pat text i := by
  intro text
  induction text with
  | nil =>
    by_cases hp : pat.isPrefixOf ([] : List Char) = true
    · rw [findSub, if_pos hp]
      constructor
      · intro h; cases h
      · intro h; exact absurd ((occursAt_nil pat 0).mpr hp) (h 0)
    · rw [findSub, if_neg hp]
      exact ⟨fun _ i hocc => hp ((occursAt_nil pat i).mp hocc), fun _ => rfl⟩
  | cons c rest ih =>
    by_cases hp : pat.isPrefixOf (c :: rest) = true
    · rw [findSub, if_pos hp]
      constructor
      · intro h; cases h
      · intro h; exact absurd ((occursAt_zero pat (c :: rest)).mpr hp) (h 0)
    · rw [findSub, if_neg hp, Option.map_eq_none']
      rw [ih]
      constructor
      · intro h i
        cases i with
        | zero => exact fun hc => hp ((occursAt_zero pat (c :: rest)).mp hc)
        | succ i' => exact fun hc => h i' ((occursAt_cons_succ pat c rest i').mp hc)
      · intro h i hc
        exact h (i + 1) ((occursAt_cons_succ pat c rest i).mpr hc)

theorem not_occurs_of_findSub_none {pat text : List Char}
    (h : findSub pat text = none) : ¬ Occurs pat text := by
  rintro ⟨i, hi⟩
  exact (findSub_eq_none_iff pat text).mp h i hi

theorem contains_iff_occurs (pat text : List Char) :
    containsSub pat text = true ↔ Occurs pat text := by
  unfold containsSub
  rw [Option.isSome_iff_exists]
  constructor
  · rintro ⟨i, hi⟩
    exact ⟨i, ((findSub_eq_some_iff pat text i).mp hi).1⟩
  · rintro ⟨i, hi⟩
    cases hfs : findSub pat text with
    | none => exact absurd hi ((findSub_eq_none_iff pat text).mp hfs i)
    | some j => exact ⟨j, rfl⟩

theorem contains_eq_false_of_not_occurs {pat text : List Char}
    (h : ¬ Occurs pat text) : containsSub pat text = false := by
  cases hb : containsSub pat text with
  | false => rfl
  | true => exact absurd ((contains_iff_occurs pat text).mp hb) h

/-! ## Occurrences across concatenation -/

theorem occursAt_append_add (pat A B : List Char) (i : Nat) :
    OccursAt pat (A ++ B) (A.length + i) ↔ OccursAt pat B i := by
  unfold OccursAt
  rw [List.drop_append]

theorem occursAt_append_le (pat A B : List Char) (i : Nat) (h : i ≤ A.length) :
    OccursAt pat (A ++ B) i ↔ pat.isPrefixOf (A.drop i ++ B) = true := by
  unfold OccursAt
  rw [List.drop_append_eq_append_drop, Nat.sub_eq_zero_of_le h, List.drop_zero]

/-- A prefix check against `X ++ B` with `X` non-empty only reads the
first `|pat| - 1` characters of `B`. -/
theorem isPrefixOf_append_window (pat X B : List Char) (hX : 1 ≤ X.length) :
    pat.isPrefixOf (X ++ B) = pat.isPrefixOf (X ++ B.take (pat.length - 1)) := by
  rw [← isPrefixOf_take_eq pat (X ++ B) pat.length le_rfl,
    ← isPrefixOf_take_eq pat (X ++ B.take (pat.length - 1)) pat.length le_rfl,
    List.take_append_eq_append_take, List.take_append_eq_append_take,
    List.take_take, Nat.min_eq_left (by omega)]

theorem occursAt_append_take_eq (pat A B : List Char) (k : Nat) (hk : k < A.length) :
    OccursAt pat (A ++ B) k ↔ OccursAt pat (A ++ B.take (pat.length - 1)) k := by
  rw [occursAt_append_le pat A B k (Nat.le_of_lt hk),
    occursAt_append_le pat A (B.take (pat.length - 1)) k (Nat.le_of_lt hk),
    isPrefixOf_append_window pat (A.drop k) B (by rw [List.length_drop]; omega)]

/-- Occurrences in `A ++ B` are either occurrences starting in `A`
(which can read at most `|pat| - 1` characters beyond `A`) or
occurrences in `B`. -/
theorem occurs_append_iff (pat A B : List Char) (hp : pat ≠ []) :
    Occurs pat (A ++ B) ↔ Occurs pat (A ++ B.take (pat.length - 1)) ∨ Occurs pat B := by
  have hp1 : 1 ≤ pat.length := List.length_pos.mpr hp
  constructor
  · rintro ⟨i, hi⟩
    rcases Nat.lt_or_ge i A.length with h | h
    · exact Or.inl ⟨i, (occursAt_append_take_eq pat A B i h).mp hi⟩
    · obtain ⟨j, rfl⟩ := Nat.exists_eq_add_of_le h
      exact Or.inr ⟨j, (occursAt_append_add pat A B j).mp hi⟩
  · rintro (⟨i, hi⟩ | ⟨j, hj⟩)
    · rcases Nat.lt_or_ge i A.length with h | h
      · exact ⟨i, (occursAt_append_take_eq pat A B i h).mpr hi⟩
      · obtain ⟨j, rfl⟩ := Nat.exists_eq_add_of_le h
        rw [occursAt_append_add] at hi
        have hlen := isPrefixOf_length_le hi
        rw [List.length_drop, List.length_take] at hlen
        omega
    · exact ⟨A.length + j, (occursAt_append_add pat A B j).mpr hj⟩

/-- Chaining step for proving non-occurrence over a long concatenation
window by window. -/
theorem not_occurs_chain {pat : List Char} (A B : List Char) (hp : pat ≠ [])
    (h1 : findSub pat (A ++ B.take (pat.length - 1)) = none)
    (h2 : ¬ Occurs pat B) : ¬ Occurs pat (A ++ B) := by
  rw [occurs_append_iff pat A B hp]
  rintro (h | h)
  · exact not_occurs_of_findSub_none h1 h
  · exact h2 h

/-- Chaining step for locating the first occurrence across a
concatenation whose left part contains no occurrence. -/
theorem findSub_append_shift {pat : List Char} (A B : List Char) (hp : pat ≠ [])
    (h1 : findSub pat (A ++ B.take (pat.length - 1)) = none) :
    findSub pat (A ++ B) = (findSub pat B).map (fun n => A.length + n) := by
  cases hB : findSub pat B with
  | none =>
    rw [Option.map_none']
    rw [findSub_eq_none_iff]
    intro i hi
    exact not_occurs_chain A B hp h1 (not_occurs_of_findSub_none hB) ⟨i, hi⟩
  | some m =>
    rcases (findSub_eq_some_iff pat B m).mp hB with ⟨hocc, hmin⟩
    rw [Option.map_some']
    rw [findSub_eq_some_iff]
    refine ⟨(occursAt_append_add pat A B m).mpr hocc, ?_⟩
    intro k hk hkocc
    rcases Nat.lt_or_ge k A.length with h | h
    · exact not_occurs_of_findSub_none h1 ⟨k, (occursAt_append_take_eq pat A B k h).mp hkocc⟩
    · obtain ⟨j, rfl⟩ := Nat.exists_eq_add_of_le h
      rw [occursAt_append_add] at hkocc
      exact hmin j (by omega) hkocc

/-! ## The brace scan against the stop predicate -/

theorem braceDelta_open : braceDelta '\x7b' = 1 := by decide

theorem braceDelta_close : braceDelta '\x7d' = -1 := by decide

theorem braceDelta_other {c : Char} (h1 : c ≠ '\x7b') (h2 : c ≠ '\x7d') :
    braceDelta c = 0 := by
  unfold braceDelta
  rw [if_neg h1, if_neg h2]

/-- The loop body in one step: stop when the current character is the
close delimiter and the decremented counter is zero, otherwise continue
with the counter adjusted by the character's contribution. -/
theorem scanAux_cons (c : Char) (rest : List Char) (d : Int) (i : Nat) :
    scanAux (c :: rest) d i =
      if c = '\x7d' ∧ d - 1 = 0 then some i
      else scanAux rest (d + braceDelta c) (i + 1) := by
  by_cases ho : c = '\x7b'
  · subst ho
    rw [if_neg (fun h => absurd h.1 (by decide))]
    show scanAux rest (d + 1) (i + 1) = scanAux rest (d + braceDelta '\x7b') (i + 1)
    rw [braceDelta_open]
  · by_cases hc : c = '\x7d'
    · subst hc
      by_cases hd : d - 1 = 0
      · rw [if_pos ⟨rfl, hd⟩]
        show (if d - 1 = 0 then some i else scanAux rest (d - 1) (i + 1)) = some i
        rw [if_pos hd]
      · rw [if_neg (fun h => hd h.2)]
        show (if d - 1 = 0 then some i else scanAux rest (d - 1) (i + 1)) =
          scanAux rest (d + braceDelta '\x7d') (i + 1)
        rw [if_neg hd, braceDelta_close]
        congr 1
    · rw [if_neg (fun h => hc h.1), braceDelta_other ho hc, Int.add_zero]
      show (if c = '\x7b' then scanAux rest (d + 1) (i + 1)
        else if c = '\x7d' then
          if d - 1 = 0 then some i else scanAux rest (d - 1) (i + 1)
        else scanAux rest d (i + 1)) = scanAux rest d (i + 1)
      rw [if_neg ho, if_neg hc]

theorem stopFromAt_nil (d : Int) (j : Nat) : ¬ StopFromAt d ([] : List Char) j := by
  rintro ⟨h, -, -⟩
  simp at h

theorem stopFromAt_cons_zero (d : Int) (c : Char) (rest : List Char) :
    StopFromAt d (c :: rest) 0 ↔ (c = '\x7d' ∧ d - 1 = 0) := by
  unfold StopFromAt depthListFrom
  rw [List.take_succ_cons, List.take_zero, List.foldl_cons, List.foldl_nil,
    List.getD_cons_zero]
  constructor
  · rintro ⟨-, hc, hd⟩
    subst hc
    rw [braceDelta_close] at hd
    exact ⟨rfl, by omega⟩
  · rintro ⟨hc, hd⟩
    subst hc
    rw [braceDelta_close]
    exact ⟨by simp, rfl, by omega⟩

theorem stopFromAt_cons_succ (d : Int) (c : Char) (rest : List Char) (j : Nat) :
    StopFromAt d (c :: rest) (j + 1) ↔ StopFromAt (d + braceDelta c) rest j := by
  unfold StopFromAt depthListFrom
  rw [List.take_succ_cons, List.foldl_cons, List.getD_cons_succ, List.length_cons]
  constructor
  · rintro ⟨h1, h2, h3⟩
    exact ⟨by omega, h2, h3⟩
  · rintro ⟨h1, h2, h3⟩
    exact ⟨by omega, h2, h3⟩

theorem scanAux_eq_some_iff (l : List Char) :
    ∀ (d : Int) (i m : Nat), scanAux l d i = some m ↔
      ∃ j, m = i + j ∧ StopFromAt d l j ∧ ∀ k, k < j → ¬ StopFromAt d l k := by
  induction l with
  | nil =>
    intro d i m
    constructor
    · intro h
      cases h
    · rintro ⟨j, -, hstop, -⟩
      exact absurd hstop (stopFromAt_nil d j)
  | cons c rest ih =>
    intro d i m
    rw [scanAux_cons]
    by_cases h0 : c = '\x7d' ∧ d - 1 = 0
    · rw [if_pos h0]
      constructor
      · intro h
        injection h with h
        subst h
        exact ⟨0, by omega, (stopFromAt_cons_zero d c rest).mpr h0, by omega⟩
      · rintro ⟨j, rfl, -, hmin⟩
        cases j with
        | zero => rfl
        | succ j' => exact absurd ((stopFromAt_cons_zero d c rest).mpr h0) (hmin 0 (by omega))
    · rw [if_neg h0, ih (d + braceDelta c) (i + 1) m]
      constructor
      · rintro ⟨j, rfl, hstop, hmin⟩
        refine ⟨j + 1, by omega, (stopFromAt_cons_succ d c rest j).mpr hstop, ?_⟩
        intro k hk
        cases k with
        | zero => exact fun hc => h0 ((stopFromAt_cons_zero d c rest).mp hc)
        | succ k' =>
          exact fun hc => hmin k' (by omega) ((stopFromAt_cons_succ d c rest k').mp hc)
      · rintro ⟨j, rfl, hstop, hmin⟩
        cases j with
        | zero => exact absurd ((stopFromAt_cons_zero d c rest).mp hstop) h0
        | succ j' =>
          refine ⟨j', by omega, (stopFromAt_cons_succ d c rest j').mp hstop, ?_⟩
          intro k hk hc
          exact hmin (k + 1) (by omega) ((stopFromAt_cons_succ d c rest k).mpr hc)

theorem scanAux_eq_none_iff (l : List Char) :
    ∀ (d : Int) (i : Nat), scanAux l d i = none ↔ ∀ j, ¬ StopFromAt d l j := by
  induction l with
  | nil =>
    intro d i
    constructor
    · intro _ j
      exact stopFromAt_nil d j
    · intro _
      rfl
  | cons c rest ih =>
    intro d i
    rw [scanAux_cons]
    by_cases h0 : c = '\x7d' ∧ d - 1 = 0
    · rw [if_pos h0]
      constructor
      · intro h
        cases h
      · intro h
        exact absurd ((stopFromAt_cons_zero d c rest).mpr h0) (h 0)
    · rw [if_neg h0, ih (d + braceDelta c) (i + 1)]
      constructor
      · intro h j
        cases j with
        | zero => exact fun hc => h0 ((stopFromAt_cons_zero d c rest).mp hc)
        | succ j' => exact fun hc => h j' ((stopFromAt_cons_succ d c rest j').mp hc)
      · intro h j hc
        exact h (j + 1) ((stopFromAt_cons_succ d c rest j).mpr hc)

theorem stopFromAt_append_left (d : Int) (A B : List Char) (j : Nat) (hj : j < A.length) :
    StopFromAt d (A ++ B) j ↔ StopFromAt d A j := by
  unfold StopFromAt
  rw [List.getD_append _ _ _ _ hj, List.take_append_of_le_length (by omega),
    List.length_append]
  constructor
  · rintro ⟨-, h2, h3⟩
    exact ⟨hj, h2, h3⟩
  · rintro ⟨-, h2, h3⟩
    exact ⟨by omega, h2, h3⟩

theorem stopFromAt_append_right (d : Int) (A B : List Char) (j : Nat) :
    StopFromAt d (A ++ B) (A.length + j) ↔ StopFromAt (depthListFrom d A) B j := by
  unfold StopFromAt depthListFrom
  rw [List.getD_append_right _ _ _ _ (by omega), Nat.add_sub_cancel_left,
    show A.length + j + 1 = A.length + (j + 1) by omega,
    List.take_append, List.foldl_append, List.length_append]
  constructor
  · rintro ⟨h1, h2, h3⟩
    exact ⟨by omega, h2, h3⟩
  · rintro ⟨h1, h2, h3⟩
    exact ⟨by omega, h2, h3⟩

/-- Chaining step for the scan: a window with no stop point passes the
accumulated depth and index through. -/
theorem scanAux_append_none (A B : List Char) (d : Int) (i : Nat)
    (h : scanAux A d 0 = none) :
    scanAux (A ++ B) d i = scanAux B (depthListFrom d A) (i + A.length) := by
  have hA : ∀ j, ¬ StopFromAt d A j := (scanAux_eq_none_iff A d 0).mp h
  cases hB : scanAux B (depthListFrom d A) (i + A.length) with
  | none =>
    rw [scanAux_eq_none_iff]
    intro j
    rcases Nat.lt_or_ge j A.length with hj | hj
    · exact fun hc => hA j ((stopFromAt_append_left d A B j hj).mp hc)
    · obtain ⟨j', rfl⟩ := Nat.exists_eq_add_of_le hj
      exact fun hc =>
        (scanAux_eq_none_iff B _ _).mp hB j' ((stopFromAt_append_right d A B j').mp hc)
  | some m =>
    rcases (scanAux_eq_some_iff B _ _ m).mp hB with ⟨j, rfl, hstop, hmin⟩
    rw [scanAux_eq_some_iff]
    refine ⟨A.length + j, by omega, (stopFromAt_append_right d A B j).mpr hstop, ?_⟩
    intro k hk
    rcases Nat.lt_or_ge k A.length with hk2 | hk2
    · exact fun hc => hA k ((stopFromAt_append_left d A B k hk2).mp hc)
    · obtain ⟨k', rfl⟩ := Nat.exists_eq_add_of_le hk2
      exact fun hc => hmin k' (by omega) ((stopFromAt_append_right d A B k').mp hc)

/-- Chaining step for the scan: a window that stops determines the
result regardless of what follows. -/
theorem scanAux_append_some (A B : List Char) (d : Int) (i m : Nat)
    (h : scanAux A d 0 = some m) :
    scanAux (A ++ B) d i = some (i + m) := by
  rcases (scanAux_eq_some_iff A d 0 m).mp h with ⟨j, hj, hstop, hmin⟩
  rw [scanAux_eq_some_iff]
  have hjA : j < A.length := hstop.1
  refine ⟨j, by omega, (stopFromAt_append_left d A B j hjA).mpr hstop, ?_⟩
  intro k hk
  have hkA : k < A.length := by omega
  exact fun hc => hmin k hk ((stopFromAt_append_left d A B k hkA).mp hc)

/-! ## Assembling `locate` -/

theorem locate_eq_ok {text sig : List Char} {s e : Nat}
    (h1 : findSub sig text = some s) (h2 : scanAux (text.drop s) 0 s = some e) :
    locate text sig = .ok (s, e) := by
  unfold locate
  rw [h1]
  show (match scanAux (List.drop s text) 0 s with
    | none => Except.error (PatchError.unbalancedBlock sig)
    | some e => Except.ok (s, e)) = Except.ok (s, e)
  rw [h2]

theorem locate_eq_err_notFound {text sig : List Char}
    (h : findSub sig text = none) :
    locate text sig = .error (.signatureNotFound sig) := by
  unfold locate
  rw [h]

theorem locate_eq_err_unbal {text sig : List Char} {s : Nat}
    (h1 : findSub sig text = some s) (h2 : scanAux (text.drop s) 0 s = none) :
    locate text sig = .error (.unbalancedBlock sig) := by
  unfold locate
  rw [h1]
  show (match scanAux (List.drop s text) 0 s with
    | none => Except.error (PatchError.unbalancedBlock sig)
    | some e => Except.ok (s, e)) = Except.error (PatchError.unbalancedBlock sig)
  rw [h2]

theorem locateReplace_eq_of_locate_error {text sig : List Char} (repl : List Char)
    {err : PatchError} (h : locate text sig = .error err) :
    locateReplace text sig repl = .error err := by
  unfold locateReplace
  rw [h]

/-- `runEdits` with its intermediate buffers written out. -/
theorem runEdits_eq (text : List Char) :
    runEdits text = (match locateReplace (guardedInsert initMarker ctorAnchor
      ctorReplacement (guardedInsert fieldMarker fieldAnchor
        (fieldAnchor ++ fieldAddition)
        (replaceAll importPath [] (replaceAll importFs [] text))))
      start_signature new_start with
    | Except.error err => Except.error err
    | Except.ok t5 => locateReplace t5 handle_signature new_handle) := rfl

/-! ## `replaceAll` on buffers without the pattern -/

theorem isEmpty_false_of_ne {pat : List Char} (hp : pat ≠ []) :
    pat.isEmpty = false := by
  cases pat with
  | nil => exact absurd rfl hp
  | cons c cs => rfl

theorem replaceAllAux_eq_self (pat repl : List Char) :
    ∀ (fuel : Nat) (text : List Char), pat ≠ [] →
      (∀ i, ¬ OccursAt pat text i) → replaceAllAux pat repl fuel text = text := by
  intro fuel
  induction fuel with
  | zero =>
    intro text hp _
    cases text with
    | nil => simp [replaceAllAux, isEmpty_false_of_ne hp]
    | cons c rest => rfl
  | succ f ih =>
    intro text hp h
    cases text with
    | nil => simp [replaceAllAux, isEmpty_false_of_ne hp]
    | cons c rest =>
      have hpre : pat.isPrefixOf (c :: rest) = false := by
        cases hb : pat.isPrefixOf (c :: rest) with
        | false => rfl
        | true => exact absurd ((occursAt_zero pat (c :: rest)).mpr hb) (h 0)
      show (if pat.isPrefixOf (c :: rest) && !pat.isEmpty then
          repl ++ replaceAllAux pat repl f (List.drop (pat.length - 1) rest)
        else if pat.isEmpty then
          repl ++ c :: replaceAllAux pat repl f rest
        else
          c :: replaceAllAux pat repl f rest) = c :: rest
      rw [hpre, Bool.false_and, if_neg (by simp), if_neg (by simp [isEmpty_false_of_ne hp])]
      have : ∀ i, ¬ OccursAt pat rest i := by
        intro i hc
        exact h (i + 1) ((occursAt_cons_succ pat c rest i).mpr hc)
      rw [ih rest hp this]

/-- Python `text.replace(pat, repl)` is the identity when `pat` does not
occur in `text`. -/
theorem replaceAll_eq_self {pat : List Char} (repl text : List Char)
    (hp : pat ≠ []) (h : ¬ Occurs pat text) : replaceAll pat repl text = text := by
  unfold replaceAll
  exact replaceAllAux_eq_self pat repl text.length text hp fun i hi => h ⟨i, hi⟩

/-- A guarded insertion whose marker and anchor are both absent leaves
the buffer unchanged. -/
theorem guardedInsert_eq_self {marker anchor : List Char} (repl text : List Char)
    (hm : ¬ Occurs marker text) (ha : ¬ Occurs anchor text) :
    guardedInsert marker anchor repl text = text := by
  have hanil : anchor ≠ [] := by
    intro h0
    subst h0
    exact ha ⟨0, by rw [occursAt_zero]; exact isPrefixOf_nil_left text⟩
  unfold guardedInsert
  rw [contains_eq_false_of_not_occurs hm, if_neg (by simp)]
  exact replaceAll_eq_self repl text hanil ha

/-! ## Depth bookkeeping for the matching-close theorem -/

theorem braceDelta_bounds (c : Char) : -1 ≤ braceDelta c ∧ braceDelta c ≤ 1 := by
  unfold braceDelta
  split_ifs <;> omega

theorem depthUpTo_zero (l : List Char) :
    depthUpTo l 0 = braceDelta (l.getD 0 ' ') := by
  cases l with
  | nil =>
    show (0 : Int) = braceDelta (List.getD [] 0 ' ')
    rw [List.getD_nil]
    decide
  | cons c rest =>
    show List.foldl (fun a c => a + braceDelta c) 0 ((c :: rest).take 1) =
      braceDelta ((c :: rest).getD 0 ' ')
    rw [List.take_succ_cons, List.take_zero, List.foldl_cons, List.foldl_nil,
      List.getD_cons_zero, Int.zero_add]

theorem depthUpTo_succ (l : List Char) (j : Nat) :
    depthUpTo l (j + 1) = depthUpTo l j + braceDelta (l.getD (j + 1) ' ') := by
  unfold depthUpTo depthListFrom
  rcases Nat.lt_or_ge (j + 1) l.length with h | h
  · rw [List.take_succ, List.getElem?_eq_getElem h, Option.toList_some,
      List.foldl_append, List.foldl_cons, List.foldl_nil,
      List.getD_eq_getElem?_getD, List.getElem?_eq_getElem h, Option.getD_some]
  · rw [List.take_of_length_le (by omega), List.take_of_length_le h,
      List.getD_eq_getElem?_getD, List.getElem?_eq_none h, Option.getD_none,
      show braceDelta ' ' = 0 by decide, Int.add_zero]

theorem count_take_succ (a : Char) (l : List Char) (n : Nat) (ha : a ≠ ' ') :
    (l.take (n + 1)).count a =
      (l.take n).count a + (if l.getD n ' ' = a then 1 else 0) := by
  rcases Nat.lt_or_ge n l.length with h | h
  · rw [List.take_succ, List.getElem?_eq_getElem h, Option.toList_some,
      List.count_append, List.getD_eq_getElem?_getD, List.getElem?_eq_getElem h,
      Option.getD_some]
    congr 1
    rw [List.count_cons, List.count_nil, Nat.zero_add]
    by_cases hc : l[n] = a
    · rw [if_pos hc, if_pos (by exact beq_iff_eq.mpr hc)]
    · rw [if_neg hc, if_neg (by intro hb; exact hc (beq_iff_eq.mp hb))]
  · rw [List.take_of_length_le (by omega), List.take_of_length_le h,
      List.getD_eq_getElem?_getD, List.getElem?_eq_none h, Option.getD_none,
      if_neg (fun hh => ha hh.symm), Nat.add_zero]

theorem opensUpTo_zero (l : List Char) :
    opensUpTo l 0 = if l.getD 0 ' ' = '\x7b' then 1 else 0 := by
  unfold opensUpTo
  rw [count_take_succ _ _ _ (by decide), List.take_zero, List.count_nil, Nat.zero_add]

theorem opensUpTo_succ (l : List Char) (j : Nat) :
    opensUpTo l (j + 1) = opensUpTo l j + (if l.getD (j + 1) ' ' = '\x7b' then 1 else 0) := by
  unfold opensUpTo
  rw [count_take_succ _ _ _ (by decide)]

theorem closesUpTo_zero (l : List Char) :
    closesUpTo l 0 = if l.getD 0 ' ' = '\x7d' then 1 else 0 := by
  unfold closesUpTo
  rw [count_take_succ _ _ _ (by decide), List.take_zero, List.count_nil, Nat.zero_add]

theorem closesUpTo_succ (l : List Char) (j : Nat) :
    closesUpTo l (j + 1) = closesUpTo l j + (if l.getD (j + 1) ' ' = '\x7d' then 1 else 0) := by
  unfold closesUpTo
  rw [count_take_succ _ _ _ (by decide)]

theorem opensUpTo_mono (l : List Char) (a : Nat) :
    ∀ b, a ≤ b → opensUpTo l a ≤ opensUpTo l b := by
  intro b
  induction b with
  | zero => intro h; rw [Nat.le_zero.mp h]
  | succ b ih =>
    intro h
    rcases Nat.lt_or_ge a (b + 1) with hh | hh
    · have := ih (by omega)
      rw [opensUpTo_succ]
      omega
    · rw [Nat.le_antisymm h hh]

theorem depthUpTo_eq_opens_sub_closes (l : List Char) :
    ∀ j, depthUpTo l j = (opensUpTo l j : Int) - (closesUpTo l j : Int) := by
  intro j
  induction j with
  | zero =>
    rw [depthUpTo_zero, opensUpTo_zero, closesUpTo_zero]
    by_cases h1 : l.getD 0 ' ' = '\x7b'
    · rw [h1, braceDelta_open, if_pos rfl, if_neg (by decide)]
      omega
    · by_cases h2 : l.getD 0 ' ' = '\x7d'
      · rw [h2, braceDelta_close, if_neg (by decide), if_pos rfl]
        omega
      · rw [braceDelta_other h1 h2, if_neg h1, if_neg h2]
        omega
  | succ j ih =>
    rw [depthUpTo_succ, opensUpTo_succ, closesUpTo_succ, ih]
    by_cases h1 : l.getD (j + 1) ' ' = '\x7b'
    · rw [h1, braceDelta_open, if_pos rfl, if_neg (by decide)]
      push_cast
      omega
    · by_cases h2 : l.getD (j + 1) ' ' = '\x7d'
      · rw [h2, braceDelta_close, if_neg (by decide), if_pos rfl]
        push_cast
        omega
      · rw [braceDelta_other h1 h2, if_neg h1, if_neg h2]
        push_cast
        omega

theorem closesUpTo_pos (l : List Char) (j : Nat) (hc : l.getD j ' ' = '\x7d') :
    1 ≤ closesUpTo l j := by
  cases j with
  | zero =>
    rw [closesUpTo_zero, if_pos hc]
  | succ j' =>
    rw [closesUpTo_succ, if_pos hc]
    omega

/-- Discrete intermediate value property of the depth counter: a
positive depth that later becomes negative passes through zero. -/
theorem exists_zero_between (l : List Char) (p : Nat) :
    ∀ b, p < b → 0 < depthUpTo l p → depthUpTo l b < 0 →
      ∃ q, p < q ∧ q ≤ b ∧ depthUpTo l q = 0 := by
  intro b
  induction b with
  | zero => intro h _ _; exact absurd h (by omega)
  | succ b ih =>
    intro hpb hp hb
    have hbd := braceDelta_bounds (l.getD (b + 1) ' ')
    have hstep := depthUpTo_succ l b
    by_cases hq : depthUpTo l b = 0
    · have hplt : p < b := by
        rcases Nat.lt_or_ge p b with hh | hh
        · exact hh
        · have : p = b := by omega
          rw [this] at hp
          omega
      exact ⟨b, hplt, by omega, hq⟩
    · rcases Int.lt_or_lt_of_ne hq with hneg | hpos
      · have hplt : p < b := by
          rcases Nat.lt_or_ge p b with hh | hh
          · exact hh
          · have : p = b := by omega
            rw [this] at hp
            omega
        obtain ⟨q, h1, h2, h3⟩ := ih hplt hp hneg
        exact ⟨q, h1, by omega, h3⟩
      · omega

/-- **C1.** For every buffer and signature `sig` present in the buffer
(first occurrence at offset `s`), if the first delimiter at or after `s`
is the opening delimiter (the signature line contains the block's
opening delimiter) and the block is balanced (the depth counter over the
suffix returns to zero after having been incremented), then `locate`
returns the span from `s` to the matching close delimiter: the first
offset at which the depth counter returns to zero after having been
incremented at least once, and that offset carries the close
delimiter.  Correct for arbitrarily nested blocks. -/
theorem claim_C1_locate_matching_close (text sig : List Char) (s : Nat)
    (hfind : findSub sig text = some s)
    (hopen : ∃ p, p < (text.drop s).length ∧ (text.drop s).getD p ' ' = '\x7b' ∧
      ∀ k, k < p → (text.drop s).getD k ' ' ≠ '\x7b' ∧ (text.drop s).getD k ' ' ≠ '\x7d')
    (hbal : ∃ j, ZeroPt (text.drop s) j) :
    ∃ e, locate text sig = .ok (s, s + e) ∧ ZeroPt (text.drop s) e ∧
      (text.drop s).getD e ' ' = '\x7d' ∧ ∀ k, k < e → ¬ ZeroPt (text.drop s) k := by
  set l := text.drop s with hl
  obtain ⟨p, hpl, hpc, hpmin⟩ := hopen
  obtain ⟨k0, hk0, hk0min⟩ : ∃ k0, ZeroPt l k0 ∧ ∀ k, k < k0 → ¬ ZeroPt l k :=
    ⟨Nat.find hbal, Nat.find_spec hbal, fun k hk => Nat.find_min hbal hk⟩
  obtain ⟨hk0l, hk0d, hk0o⟩ := hk0
  -- before the first open delimiter the depth and the open count are zero
  have hbefore : ∀ k, k < p → depthUpTo l k = 0 ∧ opensUpTo l k = 0 := by
    intro k
    induction k with
    | zero =>
      intro h0
      obtain ⟨hno, hnc⟩ := hpmin 0 h0
      constructor
      · rw [depthUpTo_zero, braceDelta_other hno hnc]
      · rw [opensUpTo_zero, if_neg hno]
    | succ k ihk =>
      intro hk
      obtain ⟨hd, ho⟩ := ihk (by omega)
      obtain ⟨hno, hnc⟩ := hpmin (k + 1) hk
      constructor
      · rw [depthUpTo_succ, braceDelta_other hno hnc, hd, Int.add_zero]
      · rw [opensUpTo_succ, if_neg hno, ho]
  -- at the first open delimiter the depth and the open count are one
  have hatp : depthUpTo l p = 1 ∧ opensUpTo l p = 1 := by
    cases p with
    | zero =>
      constructor
      · rw [depthUpTo_zero, hpc, braceDelta_open]
      · rw [opensUpTo_zero, if_pos hpc]
    | succ p' =>
      obtain ⟨hd, ho⟩ := hbefore p' (by omega)
      constructor
      · rw [depthUpTo_succ, hd, hpc, braceDelta_open, Int.zero_add]
      · rw [opensUpTo_succ, if_pos hpc, ho]
  obtain ⟨hdp1, hop1⟩ := hatp
  -- the least zero point carries the close delimiter
  have hchar : l.getD k0 ' ' = '\x7d' := by
    by_contra hne
    by_cases hob : l.getD k0 ' ' = '\x7b'
    · -- an open delimiter bringing the depth back to zero would mean the
      -- depth was -1, so it had already passed through zero earlier
      have hk0pos : k0 ≠ 0 := by
        intro h0
        subst h0
        rw [depthUpTo_zero, hob, braceDelta_open] at hk0d
        cases hk0d
      obtain ⟨k', rfl⟩ : ∃ k', k0 = k' + 1 := ⟨k0 - 1, by omega⟩
      have hstep := depthUpTo_succ l k'
      rw [hob, braceDelta_open] at hstep
      have hdm1 : depthUpTo l k' = -1 := by omega
      have hpk : p < k' := by
        rcases Nat.lt_or_ge k' p with hh | hh
        · have := (hbefore k' hh).1
          omega
        · rcases Nat.eq_or_lt_of_le hh with hh2 | hh2
          · rw [← hh2] at hdm1
            omega
          · exact hh2
      obtain ⟨q, hq1, hq2, hq3⟩ := exists_zero_between l p k' hpk (by omega) (by omega)
      have hqz : ZeroPt l q := by
        refine ⟨by omega, hq3, ?_⟩
        have := opensUpTo_mono l p q (by omega)
        omega
      exact hk0min q (by omega) hqz
    · -- a non-delimiter character: the previous offset is already a zero point
      have hk0pos : k0 ≠ 0 := by
        intro h0
        subst h0
        rw [opensUpTo_zero, if_neg hob] at hk0o
        omega
      obtain ⟨k', rfl⟩ : ∃ k', k0 = k' + 1 := ⟨k0 - 1, by omega⟩
      have hstep := depthUpTo_succ l k'
      rw [braceDelta_other hob hne] at hstep
      have hostep := opensUpTo_succ l k'
      rw [if_neg hob] at hostep
      exact hk0min k' (by omega) ⟨by omega, by omega, by omega⟩
  -- k0 is the first stop point of the scan
  have hstop : StopFromAt 0 l k0 := ⟨hk0l, hchar, hk0d⟩
  have hstopmin : ∀ k, k < k0 → ¬ StopFromAt 0 l k := by
    rintro k hk ⟨hkl, hkc, hkd⟩
    have hcl : 1 ≤ closesUpTo l k := closesUpTo_pos l k hkc
    have hrel := depthUpTo_eq_opens_sub_closes l k
    have hkd' : depthUpTo l k = 0 := hkd
    exact hk0min k hk ⟨hkl, hkd', by omega⟩
  have hscan : scanAux l 0 s = some (s + k0) :=
    (scanAux_eq_some_iff l 0 s (s + k0)).mpr ⟨k0, rfl, hstop, hstopmin⟩
  exact ⟨k0, locate_eq_ok hfind hscan, ⟨hk0l, hk0d, hk0o⟩, hchar, hk0min⟩

/-- Witness for C1: a depth-3 nested fixture.  The hypotheses hold at
`nestBuf` / `nestSig` with first occurrence 0, and the located close
delimiter is the matching one. -/
theorem claim_C1_witness :
    (findSub nestSig nestBuf = some 0) ∧
    (∃ p, p < (nestBuf.drop 0).length ∧ (nestBuf.drop 0).getD p ' ' = '\x7b' ∧
      ∀ k, k < p → (nestBuf.drop 0).getD k ' ' ≠ '\x7b' ∧ (nestBuf.drop 0).getD k ' ' ≠ '\x7d') ∧
    (∃ j, ZeroPt (nestBuf.drop 0) j) ∧
    (∃ e, locate nestBuf nestSig = .ok (0, 0 + e) ∧ ZeroPt (nestBuf.drop 0) e ∧
      (nestBuf.drop 0).getD e ' ' = '\x7d' ∧ ∀ k, k < e → ¬ ZeroPt (nestBuf.drop 0) k) :=
  ⟨by decide, ⟨3, by decide, by decide, by decide⟩, ⟨13, by decide⟩,
    claim_C1_locate_matching_close nestBuf nestSig 0 (by decide)
      ⟨3, by decide, by decide, by decide⟩ ⟨13, by decide⟩⟩

/-! ## Helper `getD` bridges -/

theorem getD_drop (l : List Char) (n m : Nat) :
    (l.drop n).getD m ' ' = l.getD (n + m) ' ' := by
  rw [List.getD_eq_getElem?_getD, List.getD_eq_getElem?_getD, List.getElem?_drop]

theorem getD_take_lt (l : List Char) (n m : Nat) (h : m < n) :
    (l.take n).getD m ' ' = l.getD m ' ' := by
  rw [List.getD_eq_getElem?_getD, List.getD_eq_getElem?_getD, List.getElem?_take_of_lt h]

/-- **C2.** The Block Replacer returns exactly
`buffer[0:start] ++ R ++ buffer[end+1:]`: character by character, the
prefix below `start` is the original buffer, the next `|R|` characters
are `R` verbatim, and the remainder is the original buffer from
`end + 1` on; the replacement is never re-scanned, merely concatenated,
whatever delimiters it contains. -/
theorem claim_C2_replacer (buffer repl : List Char) (s e : Nat)
    (hse : s ≤ e) (hel : e ≤ buffer.length) :
    replaceSpan buffer s e repl = buffer.take s ++ repl ++ buffer.drop (e + 1) ∧
    (replaceSpan buffer s e repl).length = s + repl.length + (buffer.length - (e + 1)) ∧
    (∀ i, i < s → (replaceSpan buffer s e repl).getD i ' ' = buffer.getD i ' ') ∧
    (∀ i, i < repl.length →
      (replaceSpan buffer s e repl).getD (s + i) ' ' = repl.getD i ' ') ∧
    (∀ i, (replaceSpan buffer s e repl).getD (s + repl.length + i) ' ' =
      buffer.getD (e + 1 + i) ' ') := by
  unfold replaceSpan
  have hts : (buffer.take s).length = s := by
    rw [List.length_take]
    omega
  have htr : (buffer.take s ++ repl).length = s + repl.length := by
    rw [List.length_append, hts]
  refine ⟨rfl, ?_, ?_, ?_, ?_⟩
  · rw [List.length_append, htr, List.length_drop]
  · intro i hi
    rw [List.getD_append _ _ _ _ (by rw [htr]; omega),
      List.getD_append _ _ _ _ (by rw [hts]; exact hi), getD_take_lt _ _ _ hi]
  · intro i hi
    rw [List.getD_append _ _ _ _ (by rw [htr]; omega),
      List.getD_append_right _ _ _ _ (by rw [hts]; omega), hts,
      Nat.add_sub_cancel_left]
  · intro i
    rw [List.getD_append_right _ _ _ _ (by rw [htr]; omega), htr,
      show s + repl.length + i - (s + repl.length) = i from by omega, getD_drop]

/-- Witness for C2 at a concrete buffer, span and replacement. -/
theorem claim_C2_witness :
    replaceSpan "abcdefgh".toList 2 4 "XY".toList =
      "abcdefgh".toList.take 2 ++ "XY".toList ++ "abcdefgh".toList.drop 5 ∧
    (replaceSpan "abcdefgh".toList 2 4 "XY".toList).length = 2 + 2 + 3 :=
  ⟨(claim_C2_replacer "abcdefgh".toList "XY".toList 2 4 (by decide) (by decide)).1,
    (claim_C2_replacer "abcdefgh".toList "XY".toList 2 4 (by decide) (by decide)).2.1⟩

/-- **C9.** Whenever the locator succeeds with a span `(s, e)`, the span
satisfies the replacer's precondition: `s ≤ e < |buffer|` and the
character at `e` is the close delimiter, so the splice
`buffer[:s] ++ R ++ buffer[e+1:]` only indexes valid positions. -/
theorem claim_C9_span_valid (text sig : List Char) (s e : Nat)
    (h : locate text sig = .ok (s, e)) :
    s ≤ e ∧ e < text.length ∧ text.getD e ' ' = '\x7d' := by
  cases hfs : findSub sig text with
  | none =>
    rw [locate_eq_err_notFound hfs] at h
    cases h
  | some s' =>
    cases hsc : scanAux (text.drop s') 0 s' with
    | none =>
      rw [locate_eq_err_unbal hfs hsc] at h
      cases h
    | some m =>
      rw [locate_eq_ok hfs hsc] at h
      injection h with h2
      injection h2 with ha hb
      subst ha
      subst hb
      rcases (scanAux_eq_some_iff _ _ _ _).mp hsc with ⟨j, hj, hstop, -⟩
      obtain ⟨hjl, hjc, -⟩ := hstop
      rw [List.length_drop] at hjl
      rw [getD_drop] at hjc
      subst hj
      exact ⟨by omega, by omega, hjc⟩

/-- Witness for C9 at a concrete located span. -/
theorem claim_C9_witness :
    0 ≤ 13 ∧ 13 < nestBuf.length ∧ nestBuf.getD 13 ' ' = '\x7d' :=
  claim_C9_span_valid nestBuf nestSig 0 13 (by decide)

/-- **C5.** When the signature occurs at all (once or more), the locator
resolves the block start to the offset of the *first* occurrence: the
offset returned by the search occurs, no smaller offset does, and any
successful `locate` starts exactly there. -/
theorem claim_C5_first_occurrence (text sig : List Char) (h : Occurs sig text) :
    ∃ s, findSub sig text = some s ∧ OccursAt sig text s ∧
      (∀ k, k < s → ¬ OccursAt sig text k) ∧
      ∀ s' e, locate text sig = .ok (s', e) → s' = s := by
  cases hfs : findSub sig text with
  | none => exact absurd h (not_occurs_of_findSub_none hfs)
  | some s =>
    rcases (findSub_eq_some_iff sig text s).mp hfs with ⟨hocc, hmin⟩
    refine ⟨s, rfl, hocc, hmin, ?_⟩
    intro s' e hup
    cases hsc : scanAux (text.drop s) 0 s with
    | none =>
      rw [locate_eq_err_unbal hfs hsc] at hup
      cases hup
    | some m =>
      rw [locate_eq_ok hfs hsc] at hup
      injection hup with h2
      injection h2 with ha hb
      exact ha.symm

/-- Witness for C5: the signature occurs twice; the locator resolves to
the first occurrence (offset 1). -/
theorem claim_C5_witness :
    ∃ s, findSub "ab".toList "xabab".toList = some s ∧
      OccursAt "ab".toList "xabab".toList s ∧
      (∀ k, k < s → ¬ OccursAt "ab".toList "xabab".toList k) ∧
      ∀ s' e, locate "xabab".toList "ab".toList = .ok (s', e) → s' = s :=
  claim_C5_first_occurrence "xabab".toList "ab".toList ⟨1, by decide⟩

/-- **C6.** The Idempotency Guard returns `true` exactly when the marker
occurs as an exact substring of the buffer (no normalisation); it is a
total function with no effect on the buffer, and when the marker is
present the guarded insertion leaves the buffer unchanged. -/
theorem claim_C6_idempotency_guard (text marker anchor repl : List Char)
    (_hm : marker ≠ []) :
    (containsSub marker text = true ↔ Occurs marker text) ∧
    (Occurs marker text → guardedInsert marker anchor repl text = text) := by
  refine ⟨contains_iff_occurs marker text, ?_⟩
  intro h
  unfold guardedInsert
  rw [if_pos ((contains_iff_occurs marker text).mpr h)]

/-- Witness for C6: the spec's own fixture — a buffer already holding
the marker `flagSet = true;`; the guard reports presence and the guarded
insertion leaves the buffer unchanged. -/
theorem claim_C6_witness :
    ((containsSub "flagSet = true;".toList "ab flagSet = true; cd".toList = true ↔
      Occurs "flagSet = true;".toList "ab flagSet = true; cd".toList) ∧
    (Occurs "flagSet = true;".toList "ab flagSet = true; cd".toList →
      guardedInsert "flagSet = true;".toList "anchor;".toList "repl;".toList
        "ab flagSet = true; cd".toList = "ab flagSet = true; cd".toList)) ∧
    guardedInsert "flagSet = true;".toList "anchor;".toList "repl;".toList
      "ab flagSet = true; cd".toList = "ab flagSet = true; cd".toList :=
  ⟨claim_C6_idempotency_guard _ _ _ _ (by decide),
    (claim_C6_idempotency_guard "ab flagSet = true; cd".toList "flagSet = true;".toList
      "anchor;".toList "repl;".toList (by decide)).2 ⟨3, by decide⟩⟩

/-- **C10.** Insert-if-absent edits never fail: when the guard marker is
absent and the insertion anchor is also absent, the substring
replacement is a no-op and the buffer passes through unchanged — a
missing anchor is not fatal, unlike a missing block signature. -/
theorem claim_C10_insert_anchor_missing (text marker anchor repl : List Char)
    (hm : ¬ Occurs marker text) (ha : ¬ Occurs anchor text) :
    guardedInsert marker anchor repl text = text :=
  guardedInsert_eq_self repl text hm ha

/-- Witness for C10: neither marker nor anchor occurs; the edit is a
no-op. -/
theorem claim_C10_witness :
    guardedInsert "mm".toList "aa".toList "rr".toList "xyz".toList = "xyz".toList :=
  claim_C10_insert_anchor_missing "xyz".toList "mm".toList "aa".toList "rr".toList
    (not_occurs_of_findSub_none (by decide)) (not_occurs_of_findSub_none (by decide))

/-- **C3.** Error taxonomy of the locator: it fails with
`SignatureNotFound` (naming the signature) precisely when the signature
does not occur in the buffer; it fails with `UnbalancedBlock` precisely
when the signature is found but the forward scan from the first
occurrence has no stop point (the depth counter never returns to zero
before the end of the buffer); otherwise it succeeds with a span. -/
theorem claim_C3_error_taxonomy (text sig : List Char) :
    (locate text sig = .error (.signatureNotFound sig) ↔ ¬ Occurs sig text) ∧
    (locate text sig = .error (.unbalancedBlock sig) ↔
      (∃ s, findSub sig text = some s ∧ ∀ j, ¬ StopFromAt 0 (text.drop s) j)) ∧
    ((Occurs sig text ∧
        ¬ ∃ s, findSub sig text = some s ∧ ∀ j, ¬ StopFromAt 0 (text.drop s) j) →
      ∃ span, locate text sig = .ok span) := by
  cases hfs : findSub sig text with
  | none =>
    have hno : ¬ Occurs sig text := not_occurs_of_findSub_none hfs
    refine ⟨?_, ?_, ?_⟩
    · rw [locate_eq_err_notFound hfs]
      exact ⟨fun _ => hno, fun _ => rfl⟩
    · rw [locate_eq_err_notFound hfs]
      constructor
      · intro h
        injection h with h2
        cases h2
      · rintro ⟨s, hs, -⟩
        cases hs
    · rintro ⟨hocc, -⟩
      exact absurd hocc hno
  | some s =>
    have hocc : Occurs sig text := ⟨s, ((findSub_eq_some_iff sig text s).mp hfs).1⟩
    cases hsc : scanAux (text.drop s) 0 s with
    | none =>
      have hnostop := (scanAux_eq_none_iff _ _ _).mp hsc
      refine ⟨?_, ?_, ?_⟩
      · rw [locate_eq_err_unbal hfs hsc]
        constructor
        · intro h
          injection h with h2
          cases h2
        · intro h
          exact absurd hocc h
      · rw [locate_eq_err_unbal hfs hsc]
        exact ⟨fun _ => ⟨s, rfl, hnostop⟩, fun _ => rfl⟩
      · rintro ⟨-, hne⟩
        exact absurd ⟨s, rfl, hnostop⟩ hne
    | some m =>
      refine ⟨?_, ?_, ?_⟩
      · rw [locate_eq_ok hfs hsc]
        constructor
        · intro h
          cases h
        · intro h
          exact absurd hocc h
      · rw [locate_eq_ok hfs hsc]
        constructor
        · intro h
          cases h
        · rintro ⟨s', hs', hnostop⟩
          injection hs' with hs'
          subst hs'
          rcases (scanAux_eq_some_iff _ _ _ _).mp hsc with ⟨j, -, hstop, -⟩
          exact absurd hstop (hnostop j)
      · intro _
        exact ⟨(s, m), locate_eq_ok hfs hsc⟩

/-- Witness for C3: each of the three outcomes realised on a concrete
buffer. -/
theorem claim_C3_witness :
    (locate "abc".toList "zz".toList = .error (.signatureNotFound "zz".toList)) ∧
    (locate "ab\x7bc".toList "ab\x7b".toList = .error (.unbalancedBlock "ab\x7b".toList)) ∧
    (∃ span, locate "a\x7b\x7d".toList "a\x7b".toList = .ok span) := by
  refine ⟨(claim_C3_error_taxonomy "abc".toList "zz".toList).1.mpr
      (not_occurs_of_findSub_none (by decide)),
    (claim_C3_error_taxonomy "ab\x7bc".toList "ab\x7b".toList).2.1.mpr
      ⟨0, by decide, (scanAux_eq_none_iff ("ab\x7bc".toList.drop 0) 0 0).mp (by decide)⟩,
    (claim_C3_error_taxonomy "a\x7b\x7d".toList "a\x7b".toList).2.2 ⟨⟨0, by decide⟩, ?_⟩⟩
  rintro ⟨s, hs, hnostop⟩
  have hs0 : s = 0 := by
    rw [show findSub "a\x7b".toList "a\x7b\x7d".toList = some 0 from by decide] at hs
    injection hs with hs
    exact hs.symm
  subst hs0
  exact hnostop 2 (by decide)

/-- **C8.** The spec's end-to-end scenario: on the buffer
`fn foo() { if (x) { y(); } }` with signature `fn foo() {` and
replacement `fn foo() { return 1; }`, the locator finds the span
`(0, 27)` (the matching final close) and the replacement yields exactly
the new body, the content outside the span (here empty) preserved. -/
theorem claim_C8_end_to_end :
    locate "fn foo() \x7b if (x) \x7b y(); \x7d \x7d".toList "fn foo() \x7b".toList =
      .ok (0, 27) ∧
    locateReplace "fn foo() \x7b if (x) \x7b y(); \x7d \x7d".toList
      "fn foo() \x7b".toList "fn foo() \x7b return 1; \x7d".toList =
      .ok ("fn foo() \x7b return 1; \x7d".toList) := by
  constructor
  · decide
  · decide

/-- **C4.** The run is all-or-nothing: the file content after a run
(`runScript`) equals the original content whenever any edit fails, and
equals the fully patched buffer exactly when every edit succeeded — the
buffer is persisted only by the single final write. -/
theorem claim_C4_all_or_nothing (content : List Char) :
    (∀ err, runEdits content = .error err → runScript content = content) ∧
    (∀ patched, runEdits content = .ok patched → runScript content = patched) := by
  constructor
  · intro err h
    unfold runScript
    rw [h]
  · intro patched h
    unfold runScript
    rw [h]

/-- Witness for C4: on the empty file the first block edit fails with
`SignatureNotFound` and the file content is unchanged. -/
theorem claim_C4_witness :
    runScript ([] : List Char) = [] ∧
    runEdits ([] : List Char) = .error (.signatureNotFound start_signature) :=
  ⟨(claim_C4_all_or_nothing []).1 (.signatureNotFound start_signature) (by decide),
    by decide⟩

/-! ## The edit sequence on a representative buffer, run twice

These lemmas evaluate `runEdits` on `idemBuffer` and then on its output
`idemOnce`.  The buffers involved are a few thousand characters, beyond
what a single kernel reduction handles, so every fact is established
window by window with the chaining lemmas above. -/

set_option maxRecDepth 8000
set_option maxHeartbeats 2000000

/-- `idemOnce` split at proof-friendly window boundaries. -/
theorem idemOnce_split :
    idemOnce = ns1 ++ (ns2 ++ ((ns3 ++ ['\n']) ++ (nh1 ++ (nh2 ++ (nh3 ++ ['\n']))))) := by
  simp [idemOnce, new_start, new_handle, List.append_assoc]

/-- First block replacement of the run on `idemBuffer`. -/
theorem locateReplace_first_idem :
    locateReplace idemBuffer start_signature new_start =
      .ok (new_start ++ ('\n' :: (handle_signature ++ ['\x7d', '\n']))) := by
  have hscan : scanAux (idemBuffer.drop 0) 0 0 = some 75 := by
    rw [List.drop_zero]
    decide
  have hloc : locate idemBuffer start_signature = .ok (0, 75) :=
    locate_eq_ok (by decide) hscan
  unfold locateReplace
  rw [hloc]
  show Except.ok (replaceSpan idemBuffer 0 75 new_start) = _
  unfold replaceSpan
  rw [List.take_zero, List.nil_append,
    show idemBuffer.drop (75 + 1) = '\n' :: (handle_signature ++ ['\x7d', '\n']) from by decide]

/-- Second block replacement of the run on `idemBuffer`: the signature
is found right after the spliced-in `new_start`, and the splice yields
`idemOnce`. -/
theorem locateReplace_second_idem :
    locateReplace (new_start ++ ('\n' :: (handle_signature ++ ['\x7d', '\n'])))
      handle_signature new_handle = .ok idemOnce := by
  have hsplit : new_start ++ ('\n' :: (handle_signature ++ ['\x7d', '\n'])) =
      ns1 ++ (ns2 ++ (ns3 ++ ('\n' :: (handle_signature ++ ['\x7d', '\n'])))) := by
    simp [new_start, List.append_assoc]
  have hfind : findSub handle_signature
      (new_start ++ ('\n' :: (handle_signature ++ ['\x7d', '\n']))) = some 1065 := by
    rw [hsplit, findSub_append_shift ns1 _ (by decide) (by decide),
      findSub_append_shift ns2 _ (by decide) (by decide),
      show findSub handle_signature
        (ns3 ++ ('\n' :: (handle_signature ++ ['\x7d', '\n']))) = some 368 from by decide,
      Option.map_some', Option.map_some',
      show ns2.length + 368 = 676 from by decide,
      show ns1.length + 676 = 1065 from by decide]
  have hscan : scanAux
      ((new_start ++ ('\n' :: (handle_signature ++ ['\x7d', '\n']))).drop 1065) 0 1065 =
      some 1147 := by
    rw [hsplit,
      show (1065 : Nat) = ns1.length + 676 from by decide, List.drop_append,
      show (676 : Nat) = ns2.length + 368 from by decide, List.drop_append,
      show (368 : Nat) = ns3.length + 1 from by decide, List.drop_append]
    decide
  have hloc : locate (new_start ++ ('\n' :: (handle_signature ++ ['\x7d', '\n'])))
      handle_signature = .ok (1065, 1147) := locate_eq_ok hfind hscan
  unfold locateReplace
  rw [hloc]
  show Except.ok (replaceSpan
    (new_start ++ ('\n' :: (handle_signature ++ ['\x7d', '\n']))) 1065 1147 new_handle) = _
  congr 1

/-- One full run of the edit sequence on `idemBuffer` succeeds and
produces `idemOnce`. -/
theorem runEdits_idemBuffer : runEdits idemBuffer = .ok idemOnce := by
  have h1 : replaceAll importFs [] idemBuffer = idemBuffer :=
    replaceAll_eq_self [] idemBuffer (by decide) (not_occurs_of_findSub_none (by decide))
  have h2 : replaceAll importPath [] idemBuffer = idemBuffer :=
    replaceAll_eq_self [] idemBuffer (by decide) (not_occurs_of_findSub_none (by decide))
  have h3 : guardedInsert fieldMarker fieldAnchor (fieldAnchor ++ fieldAddition)
      idemBuffer = idemBuffer :=
    guardedInsert_eq_self _ idemBuffer (not_occurs_of_findSub_none (by decide))
      (not_occurs_of_findSub_none (by decide))
  have h4 : guardedInsert initMarker ctorAnchor ctorReplacement idemBuffer = idemBuffer :=
    guardedInsert_eq_self _ idemBuffer (not_occurs_of_findSub_none (by decide))
      (not_occurs_of_findSub_none (by decide))
  unfold runEdits
  show (match locateReplace (guardedInsert initMarker ctorAnchor ctorReplacement
      (guardedInsert fieldMarker fieldAnchor (fieldAnchor ++ fieldAddition)
        (replaceAll importPath [] (replaceAll importFs [] idemBuffer))))
      start_signature new_start with
    | Except.error err => Except.error err
    | Except.ok t5 => locateReplace t5 handle_signature new_handle) = Except.ok idemOnce
  rw [h1, h2, h3, h4, locateReplace_first_idem]
  show locateReplace (new_start ++ ('\n' :: (handle_signature ++ ['\x7d', '\n'])))
    handle_signature new_handle = .ok idemOnce
  exact locateReplace_second_idem

/-- The `fs` import line does not occur in the once-patched buffer. -/
theorem not_occurs_importFs_idemOnce : ¬ Occurs importFs idemOnce := by
  rw [idemOnce_split]
  refine not_occurs_chain _ _ (by decide) (by decide) ?_
  refine not_occurs_chain _ _ (by decide) (by decide) ?_
  refine not_occurs_chain _ _ (by decide) (by decide) ?_
  refine not_occurs_chain _ _ (by decide) (by decide) ?_
  refine not_occurs_chain _ _ (by decide) (by decide) ?_
  exact not_occurs_of_findSub_none (by decide)

/-- The `path` import line does not occur in the once-patched buffer. -/
theorem not_occurs_importPath_idemOnce : ¬ Occurs importPath idemOnce := by
  rw [idemOnce_split]
  refine not_occurs_chain _ _ (by decide) (by decide) ?_
  refine not_occurs_chain _ _ (by decide) (by decide) ?_
  refine not_occurs_chain _ _ (by decide) (by decide) ?_
  refine not_occurs_chain _ _ (by decide) (by decide) ?_
  refine not_occurs_chain _ _ (by decide) (by decide) ?_
  exact not_occurs_of_findSub_none (by decide)

/-- The field-declaration marker does not occur in the once-patched
buffer. -/
theorem not_occurs_fieldMarker_idemOnce : ¬ Occurs fieldMarker idemOnce := by
  rw [idemOnce_split]
  refine not_occurs_chain _ _ (by decide) (by decide) ?_
  refine not_occurs_chain _ _ (by decide) (by decide) ?_
  refine not_occurs_chain _ _ (by decide) (by decide) ?_
  refine not_occurs_chain _ _ (by decide) (by decide) ?_
  refine not_occurs_chain _ _ (by decide) (by decide) ?_
  exact not_occurs_of_findSub_none (by decide)

/-- The field-insertion anchor does not occur in the once-patched
buffer. -/
theorem not_occurs_fieldAnchor_idemOnce : ¬ Occurs fieldAnchor idemOnce := by
  rw [idemOnce_split]
  refine not_occurs_chain _ _ (by decide) (by decide) ?_
  refine not_occurs_chain _ _ (by decide) (by decide) ?_
  refine not_occurs_chain _ _ (by decide) (by decide) ?_
  refine not_occurs_chain _ _ (by decide) (by decide) ?_
  refine not_occurs_chain _ _ (by decide) (by decide) ?_
  exact not_occurs_of_findSub_none (by decide)

/-- The initialisation marker does not occur in the once-patched
buffer. -/
theorem not_occurs_initMarker_idemOnce : ¬ Occurs initMarker idemOnce := by
  rw [idemOnce_split]
  refine not_occurs_chain _ _ (by decide) (by decide) ?_
  refine not_occurs_chain _ _ (by decide) (by decide) ?_
  refine not_occurs_chain _ _ (by decide) (by decide) ?_
  refine not_occurs_chain _ _ (by decide) (by decide) ?_
  refine not_occurs_chain _ _ (by decide) (by decide) ?_
  exact not_occurs_of_findSub_none (by decide)

/-- The constructor-insertion anchor does not occur in the once-patched
buffer. -/
theorem not_occurs_ctorAnchor_idemOnce : ¬ Occurs ctorAnchor idemOnce := by
  rw [idemOnce_split]
  refine not_occurs_chain _ _ (by decide) (by decide) ?_
  refine not_occurs_chain _ _ (by decide) (by decide) ?_
  refine not_occurs_chain _ _ (by decide) (by decide) ?_
  refine not_occurs_chain _ _ (by decide) (by decide) ?_
  refine not_occurs_chain _ _ (by decide) (by decide) ?_
  exact not_occurs_of_findSub_none (by decide)

/-- On the second run, the locator matches the block that the first run
installed: the span starts at offset 0 and ends at the close delimiter
of `new_start`, offset 1062. -/
theorem locate_idemOnce_start : locate idemOnce start_signature = .ok (0, 1062) := by
  have hscan : scanAux (idemOnce.drop 0) 0 0 = some 1062 := by
    rw [List.drop_zero, idemOnce_split,
      scanAux_append_none ns1 _ 0 0 (by decide),
      show depthListFrom 0 ns1 = 3 from by decide,
      show 0 + ns1.length = 389 from by decide,
      scanAux_append_none ns2 _ 3 389 (by decide),
      show depthListFrom 3 ns2 = 3 from by decide,
      show 389 + ns2.length = 697 from by decide,
      scanAux_append_some (ns3 ++ ['\n']) _ 3 697 365 (by decide)]
  exact locate_eq_ok (by decide) hscan

/-- The second run's first splice: it re-inserts `new_start` over the
block it matched, leaving the newline that followed the close delimiter
in place — the buffer gains an extra newline. -/
theorem replaceSpan_idemOnce :
    replaceSpan idemOnce 0 1062 new_start =
      new_start ++ ('\n' :: '\n' :: (nh1 ++ (nh2 ++ (nh3 ++ ['\n'])))) := by
  unfold replaceSpan
  rw [List.take_zero, List.nil_append, idemOnce_split,
    show (1062 : Nat) + 1 = ns1.length + 674 from by decide, List.drop_append,
    show (674 : Nat) = ns2.length + 366 from by decide, List.drop_append,
    List.drop_append_eq_append_drop,
    show ((ns3 : List Char) ++ ['\n']).drop 366 = ['\n', '\n'] from by decide,
    show (366 : Nat) - ((ns3 : List Char) ++ ['\n']).length = 0 from by decide,
    List.drop_zero]
  rfl

/-- After the second run's first splice the `handleStreamFailure`
signature occurs nowhere: the first run replaced its only occurrence by
`new_handle`, whose header declares `rawError: unknown` instead of
`rawError: any`. -/
theorem not_occurs_handleSig_twice :
    ¬ Occurs handle_signature
      (new_start ++ ('\n' :: '\n' :: (nh1 ++ (nh2 ++ (nh3 ++ ['\n']))))) := by
  have hsplit2 : new_start ++ ('\n' :: '\n' :: (nh1 ++ (nh2 ++ (nh3 ++ ['\n'])))) =
      ns1 ++ (ns2 ++ (ns3 ++ (('\n' :: '\n' :: nh1) ++ (nh2 ++ (nh3 ++ ['\n']))))) := by
    simp [new_start, List.append_assoc]
  rw [hsplit2]
  refine not_occurs_chain _ _ (by decide) (by decide) ?_
  refine not_occurs_chain _ _ (by decide) (by decide) ?_
  refine not_occurs_chain _ _ (by decide) (by decide) ?_
  refine not_occurs_chain _ _ (by decide) (by decide) ?_
  refine not_occurs_chain _ _ (by decide) (by decide) ?_
  exact not_occurs_of_findSub_none (by decide)

/-- The second run of the edit sequence aborts: after re-replacing the
`startStreamWithMcp` block it cannot find the `handleStreamFailure`
signature any more and fails with `SignatureNotFound`. -/
theorem runEdits_idemOnce :
    runEdits idemOnce = .error (.signatureNotFound handle_signature) := by
  have h1 : replaceAll importFs [] idemOnce = idemOnce :=
    replaceAll_eq_self [] idemOnce (by decide) not_occurs_importFs_idemOnce
  have h2 : replaceAll importPath [] idemOnce = idemOnce :=
    replaceAll_eq_self [] idemOnce (by decide) not_occurs_importPath_idemOnce
  have h3 : guardedInsert fieldMarker fieldAnchor (fieldAnchor ++ fieldAddition)
      idemOnce = idemOnce :=
    guardedInsert_eq_self _ idemOnce not_occurs_fieldMarker_idemOnce
      not_occurs_fieldAnchor_idemOnce
  have h4 : guardedInsert initMarker ctorAnchor ctorReplacement idemOnce = idemOnce :=
    guardedInsert_eq_self _ idemOnce not_occurs_initMarker_idemOnce
      not_occurs_ctorAnchor_idemOnce
  have hlr1 : locateReplace idemOnce start_signature new_start =
      .ok (new_start ++ ('\n' :: '\n' :: (nh1 ++ (nh2 ++ (nh3 ++ ['\n']))))) := by
    unfold locateReplace
    rw [locate_idemOnce_start]
    show Except.ok (replaceSpan idemOnce 0 1062 new_start) = _
    rw [replaceSpan_idemOnce]
  have hfind2 : findSub handle_signature
      (new_start ++ ('\n' :: '\n' :: (nh1 ++ (nh2 ++ (nh3 ++ ['\n']))))) = none := by
    rw [findSub_eq_none_iff]
    intro i hi
    exact not_occurs_handleSig_twice ⟨i, hi⟩
  rw [runEdits_eq, h1, h2, h3, h4, hlr1]
  exact locateReplace_eq_of_locate_error new_handle (locate_eq_err_notFound hfind2)

/-- **C7 (counterexample).** The idempotency claim is false on the code:
on `idemBuffer` the full edit sequence succeeds, yet running it twice
(feeding the first run's output into a second run) does not yield the
same result as running it once. -/
theorem claim_C7_counterexample :
    (runEdits idemBuffer).isOk = true ∧ runEditsTwice idemBuffer ≠ runEdits idemBuffer := by
  constructor
  · rw [runEdits_idemBuffer]
    rfl
  · rw [show runEditsTwice idemBuffer = runEdits idemOnce from by
      unfold runEditsTwice
      rw [runEdits_idemBuffer], runEdits_idemOnce, runEdits_idemBuffer]
    intro h
    cases h

/-- **C7 (amended).** The full edit sequence is not idempotent: on a
buffer where it succeeds, a second run re-matches the
`startStreamWithMcp` block installed by the first run (gaining a stray
newline) and then aborts with `SignatureNotFound`, because the
`handleStreamFailure` replacement renamed the parameter type in the
signature (`rawError: any` → `rawError: unknown`), so its signature no
longer occurs.  At the file level the second run therefore leaves the
file exactly as the first run wrote it. -/
theorem claim_C7_amended :
    runEdits idemBuffer = .ok idemOnce ∧
    runEditsTwice idemBuffer = .error (.signatureNotFound handle_signature) ∧
    runScript (runScript idemBuffer) = runScript idemBuffer := by
  refine ⟨runEdits_idemBuffer, ?_, ?_⟩
  · unfold runEditsTwice
    rw [runEdits_idemBuffer]
    show runEdits idemOnce = _
    exact runEdits_idemOnce
  · rw [show runScript idemBuffer = idemOnce from by
      unfold runScript
      rw [runEdits_idemBuffer]]
    unfold runScript
    rw [runEdits_idemOnce]

end StreamPatch
